import Mathlib

/-!
Verification of the core logic of `letterboxd_watch.py`.

The development shallowly embeds the pure logic of the script:
timestamps are natural numbers (Python `datetime` values form a linear
order and are compared only with `<`, `>`, `max`; `datetime.min` is the
least value, mapped to `0`), numeric ratings are rationals (Letterboxd
ratings are multiples of `0.5`, on which Python float arithmetic is
exact), and strings are Lean strings carrying the exact character
sequences of the source file (the star / half-star glyphs and the emoji
strings appear in the source as mojibake; the string constants below
reproduce those exact characters via unicode escapes).

Python truthiness conventions used by the script are modelled
explicitly: an optional string is truthy iff it is present and
non-empty; a `datetime` is always truthy, so an optional timestamp is
truthy iff present.

A Python `set` has no specified enumeration order.  The contents of the
`seen_guids` set are modelled as a duplicate-free list in insertion
order, and the single place the script converts the set to a list
(`list(seen_guids)[-4000:]`) is parametrised by an enumeration function
`enum` that may return the elements in any order; `validEnum` states
exactly that `enum l` is a permutation of `l`.
-/

/-- Python truthiness of an optional string: `None` and `""` are falsy. -/
def pyTruthyStr : Option String → Bool
  | none => false
  | some s => !(s == "")

/-- Python truthiness of an optional `datetime`: every `datetime` is truthy. -/
def pyTruthyTs (t : Option ℕ) : Bool := t.isSome

/-- Strict comparison of optional timestamps, used only when both are present. -/
def tsLt : Option ℕ → Option ℕ → Bool
  | some a, some b => decide (a < b)
  | _, _ => false

/-- Python substring test `pat in hay`, on character lists. -/
def strContains (hay pat : List Char) : Bool :=
  hay.tails.any (fun t => pat.isPrefixOf t)

/-- Characters Python `str.strip()` removes (whitespace). -/
def pyStripChars (l : List Char) : List Char :=
  ((l.dropWhile Char.isWhitespace).reverse.dropWhile Char.isWhitespace).reverse

/-- Python `s.strip()`. -/
def pyStrip (s : String) : String := String.mk (pyStripChars s.toList)

/-- Python `s.lower()` (character-wise; the script only lowercases ASCII "Yes"/"No"). -/
def pyLower (s : String) : String := String.mk (s.toList.map Char.toLower)

/-- The star glyph exactly as it appears in the source file
(the bytes of line 61, a mojibake rendering of a star). -/
def starGlyph : String := "‚òÖ"

/-- The half-star glyph exactly as in the source file. -/
def halfGlyph : String := "¬Ω"

/-- The characters of the source's glyph string `"<star><half>"`, used by the
character-level membership test `ch in "<star><half>"` on line 84. -/
def glyphChars : List Char := (starGlyph ++ halfGlyph).toList

/-- The `" - "` separator used by `rsplit` in the title parsers. -/
def dashSep : List Char := " - ".toList

/-- Python `s * n` for a string: `n` copies concatenated (empty for `n = 0`). -/
def strRepeat (s : String) (n : ℕ) : String := String.join (List.replicate n s)

/-- Python `int(x)`: truncation toward zero. -/
def pyTrunc (x : ℚ) : ℤ := if 0 ≤ x then ⌊x⌋ else -⌊-x⌋

/-- `stars_from_numeric` (source lines 60-68) after the `float` conversion:
`full = int(x)`, `half = abs(x - full) >= 0.5 - 1e-9`, result
`star * full + (halfGlyph if half else "")`.  The input is the parsed
numeric value; a string that fails `float` conversion never reaches this
computation (the source returns `None` in that case). -/
def stars_from_numeric (x : ℚ) : String :=
  strRepeat starGlyph (pyTrunc x).toNat ++
    (if (1 : ℚ)/2 - 1/1000000000 ≤ |x - ((pyTrunc x : ℤ) : ℚ)| then halfGlyph else "")

/-- Index of the last occurrence of `sep` in `l`, if any. -/
def lastIdxOf (sep l : List Char) : Option ℕ :=
  ((List.range (l.length + 1)).filter (fun i => sep.isPrefixOf (l.drop i))).max?

/-- Python `s.rsplit(sep, 1)` when the separator occurs (two parts split at the
last occurrence); `none` models the single-part result when it does not. -/
def rsplitOnce (sep l : List Char) : Option (List Char × List Char) :=
  match lastIdxOf sep l with
  | some i => some (l.take i, l.drop (i + sep.length))
  | none => none

/-- The fallback of `parse_rating_from_title` (lines 84-85): collect every
character of the title that is one of the glyph characters; `None` if none. -/
def fallbackStars (title : String) : Option String :=
  let stars := title.toList.filter (fun ch => decide (ch ∈ glyphChars))
  if stars.isEmpty then none else some (String.mk stars)

/-- `parse_rating_from_title` (source lines 78-85).  An empty title is falsy
and yields `None`; otherwise split on the last `" - "`; the suffix is taken
(stripped) when it contains the star or the half glyph; otherwise fall back
to collecting glyph characters from the whole title. -/
def parse_rating_from_title (title : String) : Option String :=
  if title == "" then none
  else
    match rsplitOnce dashSep title.toList with
    | some (_, suf) =>
        if strContains suf starGlyph.toList || strContains suf halfGlyph.toList then
          some (String.mk (pyStripChars suf))
        else fallbackStars title
    | none => fallbackStars title

/-- `strip_rating_from_title` (source lines 87-93). -/
def strip_rating_from_title (title : String) : String :=
  if title == "" then title
  else
    match rsplitOnce dashSep title.toList with
    | some (pre, suf) =>
        if strContains suf starGlyph.toList || strContains suf halfGlyph.toList then
          String.mk pre
        else title
    | none => title

/-- One feed entry as assembled by `fetch_items` (source lines 95-114):
`guid` from the `id`/`guid`/`link` fallback chain, raw `title`, `url`,
optional `published_at`, and the namespaced Letterboxd attributes the
classifier consults.  The HTML body is omitted: it feeds only the
review/poster extraction, which is HTML parsing, external to the core. -/
structure Item where
  guid : Option String
  title : String
  url : String
  published_at : Option ℕ
  lbx_rewatch : Option String
  lbx_member_rating : Option String
  lbx_film_title : Option String
deriving DecidableEq

/-- The persisted sync state (`data/state.json`): `last_seen` watermark and
the `seen_guids` collection (a set in the script; modelled in insertion
order, see the module comment). -/
structure SyncState where
  last_seen : Option ℕ
  seen_guids : List String
deriving DecidableEq

/-- The kind branch of `detect_kind_and_text` (source lines 136-148); the
poster / review-text outputs come from HTML parsing and are out of scope. -/
def detect_kind (i : Item) : String :=
  if strContains i.url.toList "/list/".toList && !(pyTruthyStr i.lbx_film_title) then
    "list"
  else if pyLower (pyStrip (i.lbx_rewatch.getD "")) == "yes" then
    "rewatch"
  else if pyLower (pyStrip (i.lbx_rewatch.getD "")) == "no" then
    "watched"
  else
    "watched"

/-- The verb phrase chosen by `summarize_action` (source lines 152-159). -/
def actionVerb (kind : String) : String :=
  if kind == "rewatch" then "Rewatched"
  else if kind == "watched" then "Watched"
  else if kind == "list" then "Created a list"
  else "Activity"

/-- The separator `" ‚Ä¢ "` of `summarize_action`, exact source characters. -/
def actionSep : String := " ‚Ä¢ "

/-- `summarize_action` (source lines 150-164): verb, then `"Rated <stars>"`
when a rating is present (truthy), then `"Review added"`. -/
def summarize_action (kind : String) (rating_text : Option String) (has_review : Bool) :
    String :=
  actionSep.intercalate
    ([actionVerb kind] ++
      (if pyTruthyStr rating_text then ["Rated " ++ rating_text.getD ""] else []) ++
      (if has_review then ["Review added"] else []))

/-- The review entry of the emoji map on source line 214, exact characters. -/
def reviewEmoji : String := "‚úçÔ∏è"

/-- The emoji map of source line 214: `{"rewatch": …, "watched": …,
"review": …, "list": …}.get(kind, watchedEmoji)`. -/
def emojiFor (kind : String) : String :=
  if kind == "rewatch" then "üîÅ"
  else if kind == "watched" then "üé¨"
  else if kind == "review" then reviewEmoji
  else if kind == "list" then "üìÉ"
  else "üé¨"

/-- The sort key of `fetch_items` line 113: `published_at or datetime.min`,
with `datetime.min` the least timestamp (`0`). -/
def sortKey (i : Item) : ℕ := i.published_at.getD 0

/-- The order of the descending, stable sort `items.sort(key=…, reverse=True)`. -/
def feedOrder (a b : Item) : Prop := sortKey b ≤ sortKey a

instance : DecidableRel feedOrder := fun a b => Nat.decLe (sortKey b) (sortKey a)

instance : IsTotal Item feedOrder := ⟨fun a b => Nat.le_total (sortKey b) (sortKey a)⟩

instance : IsTrans Item feedOrder := ⟨fun _ _ _ hab hbc => Nat.le_trans hbc hab⟩

/-- The sort of `fetch_items` line 113.  Python's sort is stable, as is
insertion sort, and two stable sorts for the same preorder produce the same
list, so this is an exact model of the sorted output. -/
def sortItems (l : List Item) : List Item := List.insertionSort feedOrder l

/-- The new-record test of `main` lines 397-402: a timestamped record is new
iff there is no watermark or its timestamp is strictly above it; an undated
record is new iff its guid is truthy and not in `seen_guids`. -/
def isNew (st : SyncState) (i : Item) : Bool :=
  if pyTruthyTs i.published_at && (!pyTruthyTs st.last_seen || tsLt st.last_seen i.published_at) then
    true
  else if !pyTruthyTs i.published_at && pyTruthyStr i.guid
      && !(st.seen_guids.contains (i.guid.getD "")) then
    true
  else false

/-- `new_items` of `main` lines 397-402 (appended in iteration order). -/
def newItemsOf (st : SyncState) (items : List Item) : List Item :=
  items.filter (fun i => isNew st i)

/-- The generator `next((i["published_at"] for i in items if i["published_at"]), …)`
without its default: the first present timestamp in list order. -/
def firstPublished (items : List Item) : Option ℕ :=
  items.findSome? (fun i => i.published_at)

/-- `newest_ts` of `main` lines 413-417: first present timestamp of the sorted
items, defaulting to `last_seen`; clamped to `now` when in the future. -/
def newestTs (items : List Item) (last_seen : Option ℕ) (now : ℕ) : Option ℕ :=
  match (match firstPublished items with
         | some t => some t
         | none => last_seen) with
  | some t => if now < t then some now else some t
  | none => none

/-- The watermark stored by `main` lines 419-420: `newest_ts` when truthy,
otherwise the prior `last_seen` (unchanged). -/
def advanceWatermark (items : List Item) (last_seen : Option ℕ) (now : ℕ) : Option ℕ :=
  match newestTs items last_seen now with
  | some t => some t
  | none => last_seen

/-- `set.add`: append iff not already present (insertion-ordered model). -/
def setAdd (s : List String) (g : String) : List String :=
  if g ∈ s then s else s ++ [g]

/-- `set(l)`: the distinct elements of `l` (insertion-ordered model). -/
def setOfList (l : List String) : List String := l.foldl setAdd []

/-- The body of the loop of `main` lines 421-423: add the item's guid when truthy. -/
def seenStep (s : List String) (i : Item) : List String :=
  if pyTruthyStr i.guid then setAdd s (i.guid.getD "") else s

/-- The `seen_guids` set after the loop of `main` lines 421-423: start from
`set(state["seen_guids"])` and add every truthy guid of the fetched items. -/
def seenSetAfter (seen0 : List String) (items : List Item) : List String :=
  items.foldl seenStep (setOfList seen0)

/-- Python `l[-4000:]` generalised: the last `n` elements. -/
def lastSlice (n : ℕ) (l : List String) : List String := l.drop (l.length - n)

/-- An enumeration function standing for `list(<set>)`: it must list the set's
elements in some order, i.e. return a permutation of them. -/
def validEnum (enum : List String → List String) : Prop :=
  ∀ l : List String, (enum l).Perm l

/-- The persisted `seen_guids` of `main` line 424:
`list(seen_guids)[-4000:]`, with `enum` standing for the set enumeration. -/
def updateSeen (enum : List String → List String) (seen0 : List String)
    (items : List Item) : List String :=
  lastSlice 4000 (enum (seenSetAfter seen0 items))

/-- Process-wide configuration read from the environment (source lines 25-26). -/
structure Config where
  PREVIEW_LAST_N : ℕ
  ALWAYS_EMAIL : Bool

/-- The observable effects of one run, in program order. -/
inductive Effect where
  | send_email : List Item → Bool → Effect
  | save_state : SyncState → Effect
  | write_to_snowflake : List Item → Option ℕ → Effect
deriving DecidableEq

/-- The notification branch of `main` lines 404-410. -/
def emailEffects (cfg : Config) (nItems items : List Item) : List Effect :=
  if !nItems.isEmpty then [Effect.send_email nItems false]
  else if (0 < cfg.PREVIEW_LAST_N : Bool) && !items.isEmpty then
    [Effect.send_email (items.take cfg.PREVIEW_LAST_N) true]
  else if cfg.ALWAYS_EMAIL then [Effect.send_email [] false]
  else []

/-- One run of `main` (source lines 388-428) after a successful fetch: the
fetched entries are sorted, diffed against the loaded state, notifications
are chosen, the advanced state is saved, and the snowflake write is issued
last with the clamped `newest_ts`.  Returns the effect trace in program
order together with the saved state. -/
def runOnce (cfg : Config) (enum : List String → List String) (st0 : SyncState)
    (raw : List Item) (now : ℕ) : List Effect × SyncState :=
  let items := sortItems raw
  let nItems := newItemsOf st0 items
  let nts := newestTs items st0.last_seen now
  let st1 : SyncState :=
    { last_seen := advanceWatermark items st0.last_seen now,
      seen_guids := updateSeen enum st0.seen_guids items }
  (emailEffects cfg nItems items ++
      [Effect.save_state st1, Effect.write_to_snowflake items nts],
    st1)

/-- Effect classifiers for the persistence-ordering claims. -/
def isEmailEffect : Effect → Bool
  | Effect.send_email _ _ => true
  | _ => false

/-- True exactly on the state-save effect. -/
def isSaveEffect : Effect → Bool
  | Effect.save_state _ => true
  | _ => false

/-- A timestamped test record (guid `"g"`, published at `5`). -/
def specItemTs : Item := ⟨some "g", "t", "u", some 5, none, none, none⟩

/-- An undated test record (guid `"h"`, no timestamp). -/
def specItemNoTs : Item := ⟨some "h", "t", "u", none, none, none, none⟩

/-- C1: `isNew` returns true for a timestamped record iff the watermark is
absent or the record's timestamp is strictly greater; for an undated record
iff its id is present (a truthy, i.e. non-empty, resolved guid) and not
already among the seen ids. -/
theorem isNew_matches_spec (st : SyncState) (i : Item) :
    (∀ t, i.published_at = some t →
      (isNew st i = true ↔ st.last_seen = none ∨ ∃ w, st.last_seen = some w ∧ w < t)) ∧
    (i.published_at = none →
      (isNew st i = true ↔ ∃ g, i.guid = some g ∧ g ≠ "" ∧ g ∉ st.seen_guids)) := by
  constructor
  · intro t ht
    cases hw : st.last_seen with
    | none => simp [isNew, ht, hw, pyTruthyTs, tsLt]
    | some w =>
        by_cases hlt : w < t <;>
          simp [isNew, ht, hw, pyTruthyTs, tsLt, hlt]
  · intro ht
    cases hg : i.guid with
    | none => simp [isNew, ht, hg, pyTruthyTs, pyTruthyStr]
    | some g =>
        by_cases hge : g = "" <;>
          simp [isNew, ht, hg, hge, pyTruthyTs, pyTruthyStr]

/-- Witness for C1 at concrete inputs. -/
theorem isNew_matches_spec_witness :
    isNew ⟨some 3, ["x"]⟩ specItemTs = true ∧ isNew ⟨some 3, ["x"]⟩ specItemNoTs = true := by
  constructor
  · exact ((isNew_matches_spec ⟨some 3, ["x"]⟩ specItemTs).1 5 rfl).mpr
      (Or.inr ⟨3, rfl, by decide⟩)
  · exact ((isNew_matches_spec ⟨some 3, ["x"]⟩ specItemNoTs).2 rfl).mpr
      ⟨"h", rfl, by decide, by decide⟩

/-- C10: the classifier only ever derives the kinds `watched`, `rewatch`,
`list`; hence the `Activity` verb branch of the action-summary builder and
the `review` entry of the emoji map are unreachable from classification. -/
theorem detect_kind_in_three (i : Item) :
    (detect_kind i = "watched" ∨ detect_kind i = "rewatch" ∨ detect_kind i = "list") ∧
    actionVerb (detect_kind i) ≠ "Activity" ∧
    emojiFor (detect_kind i) ≠ reviewEmoji := by
  unfold detect_kind
  split_ifs <;> refine ⟨?_, ?_, ?_⟩ <;> decide

/-- C9: the preview count influences only the notification effect; the final
sync state of a run with zero new records is identical for any two preview
settings. -/
theorem preview_count_no_state_effect (enum : List String → List String) (st0 : SyncState)
    (raw : List Item) (now : ℕ) (ae : Bool) (n₁ n₂ : ℕ)
    (_h : newItemsOf st0 (sortItems raw) = []) :
    (runOnce ⟨n₁, ae⟩ enum st0 raw now).2 = (runOnce ⟨n₂, ae⟩ enum st0 raw now).2 := rfl

/-- Witness for C9: preview count 3 versus 0 on a feed with no new records. -/
theorem preview_count_no_state_effect_witness :
    newItemsOf ⟨some 10, []⟩ (sortItems [specItemTs]) = [] ∧
    (runOnce ⟨3, true⟩ id ⟨some 10, []⟩ [specItemTs] 20).2 =
      (runOnce ⟨0, true⟩ id ⟨some 10, []⟩ [specItemTs] 20).2 :=
  ⟨by decide, preview_count_no_state_effect id ⟨some 10, []⟩ [specItemTs] 20 true 3 0 (by decide)⟩

/-- C6: every run's effect trace is some notification effects followed by
exactly one state save and then the sink write, so the state is persisted
exactly once, before and independently of the sink write. -/
theorem state_saved_once_before_sink (cfg : Config) (enum : List String → List String)
    (st0 : SyncState) (raw : List Item) (now : ℕ) :
    ∃ pre : List Effect,
      (runOnce cfg enum st0 raw now).1 =
        pre ++ [Effect.save_state (runOnce cfg enum st0 raw now).2,
                Effect.write_to_snowflake (sortItems raw)
                  (newestTs (sortItems raw) st0.last_seen now)] ∧
      (∀ e ∈ pre, isEmailEffect e = true) ∧
      (runOnce cfg enum st0 raw now).1.countP isSaveEffect = 1 := by
  refine ⟨emailEffects cfg (newItemsOf st0 (sortItems raw)) (sortItems raw), rfl, ?_, ?_⟩
  · intro e he
    unfold emailEffects at he
    split_ifs at he <;> simp_all [isEmailEffect]
  · rw [show (runOnce cfg enum st0 raw now).1 =
        emailEffects cfg (newItemsOf st0 (sortItems raw)) (sortItems raw) ++
          [Effect.save_state (runOnce cfg enum st0 raw now).2,
           Effect.write_to_snowflake (sortItems raw)
             (newestTs (sortItems raw) st0.last_seen now)] from rfl]
    rw [List.countP_append]
    have h0 : (emailEffects cfg (newItemsOf st0 (sortItems raw)) (sortItems raw)).countP
        isSaveEffect = 0 := by
      unfold emailEffects
      split_ifs <;> simp [isSaveEffect, List.countP_cons]
    rw [h0]
    simp [isSaveEffect, List.countP_cons]

/-- The feed sort is sorted for `feedOrder` (descending sort keys). -/
theorem sortItems_sorted (raw : List Item) : List.Sorted feedOrder (sortItems raw) :=
  List.sorted_insertionSort feedOrder raw

/-- The feed sort permutes the fetched items. -/
theorem sortItems_perm (raw : List Item) : (sortItems raw).Perm raw :=
  List.perm_insertionSort feedOrder raw

/-- If no item yields a first timestamp, every item is undated. -/
theorem firstPublished_eq_none {l : List Item} (h : firstPublished l = none) :
    ∀ i ∈ l, i.published_at = none := by
  induction l with
  | nil => intro i hi; cases hi
  | cons a t ih =>
      intro i hi
      cases ha : a.published_at with
      | some v => simp [firstPublished, List.findSome?_cons, ha] at h
      | none =>
          rcases List.mem_cons.mp hi with rfl | hi'
          · exact ha
          · exact ih (by simpa [firstPublished, List.findSome?_cons, ha] using h) i hi'

/-- A first timestamp is the timestamp of some member. -/
theorem firstPublished_mem : ∀ (l : List Item) (m : ℕ), firstPublished l = some m →
    ∃ i ∈ l, i.published_at = some m := by
  intro l
  induction l with
  | nil => intro m h; simp [firstPublished] at h
  | cons a t ih =>
      intro m h
      cases ha : a.published_at with
      | some v =>
          have hv : v = m := by simpa [firstPublished, List.findSome?_cons, ha] using h
          exact ⟨a, List.mem_cons_self a t, hv ▸ ha⟩
      | none =>
          obtain ⟨i, hi, ht⟩ := ih m (by simpa [firstPublished, List.findSome?_cons, ha] using h)
          exact ⟨i, List.mem_cons_of_mem a hi, ht⟩

/-- In a list sorted descending by timestamp key, the first present timestamp
bounds every present timestamp from above. -/
theorem firstPublished_ub : ∀ (l : List Item), List.Sorted feedOrder l →
    ∀ i ∈ l, ∀ t, i.published_at = some t → ∀ m, firstPublished l = some m → t ≤ m := by
  intro l
  induction l with
  | nil => intro _ i hi; cases hi
  | cons a rest ih =>
      intro hs i hi t ht m hm
      rw [List.sorted_cons] at hs
      cases ha : a.published_at with
      | some v =>
          have hvm : v = m := by simpa [firstPublished, List.findSome?_cons, ha] using hm
          rcases List.mem_cons.mp hi with rfl | hi'
          · have htv : t = v := by
              rw [ht] at ha
              exact Option.some.inj ha
            omega
          · have hord : feedOrder a i := hs.1 i hi'
            have h1 : sortKey i = t := by simp [sortKey, ht]
            have h2 : sortKey a = v := by simp [sortKey, ha]
            unfold feedOrder at hord
            omega
      | none =>
          rcases List.mem_cons.mp hi with rfl | hi'
          · exact Option.noConfusion (ht ▸ ha)
          · exact ih hs.2 i hi' t ht m
              (by simpa [firstPublished, List.findSome?_cons, ha] using hm)

/-- If a member has a timestamp, the first published timestamp exists. -/
theorem firstPublished_isSome_of_mem {l : List Item} {i : Item} (hi : i ∈ l) {t : ℕ}
    (ht : i.published_at = some t) : ∃ m, firstPublished l = some m := by
  cases h : firstPublished l with
  | none => exact absurd (firstPublished_eq_none h i hi) (by simp [ht])
  | some m => exact ⟨m, rfl⟩

/-- Normal form of the watermark update of `main` lines 413-420. -/
theorem advanceWatermark_eq (items : List Item) (ls : Option ℕ) (now : ℕ) :
    advanceWatermark items ls now =
      match firstPublished items, ls with
      | some m, _ => some (if now < m then now else m)
      | none, some w => some (if now < w then now else w)
      | none, none => none := by
  unfold advanceWatermark newestTs
  cases firstPublished items <;> cases ls <;>
    first
      | rfl
      | (rename_i a b
         by_cases h : now < a <;> simp [h])
      | (rename_i a
         by_cases h : now < a <;> simp [h])

/-- Watermark update when a first timestamp exists: that timestamp, clamped. -/
theorem advanceWatermark_of_some (items : List Item) (ls : Option ℕ) (now m : ℕ)
    (hm : firstPublished items = some m) :
    advanceWatermark items ls now = some (if now < m then now else m) := by
  rw [advanceWatermark_eq, hm]

/-- Watermark update when no item is timestamped: the prior value, clamped. -/
theorem advanceWatermark_of_none (items : List Item) (ls : Option ℕ) (now : ℕ)
    (hm : firstPublished items = none) :
    advanceWatermark items ls now =
      (match ls with
       | none => none
       | some w => some (if now < w then now else w)) := by
  rw [advanceWatermark_eq, hm]
  cases ls <;> rfl

/-- Counterexample for C3: prior watermark `10`, one record timestamped `5`,
current time `20`.  The watermark regresses to `5`, yet `5 ≤ 20`, so the
future-timestamp clamp was not involved. -/
theorem watermark_regression_counterexample :
    advanceWatermark (sortItems [specItemTs]) (some 10) 20 = some 5 ∧
    firstPublished (sortItems [specItemTs]) = some 5 ∧ (5 : ℕ) < 10 ∧ (5 : ℕ) ≤ 20 := by
  decide

/-- C3 (amended): the watermark after advance is never strictly earlier than
before except when the clamp to `now` applies, or when the feed's newest
timestamp is itself strictly earlier than the prior watermark (the code
recomputes the watermark from the fetched records rather than taking a
maximum with the prior value). -/
theorem watermark_regress_only_via_clamp_or_older_feed (raw : List Item) (w0 now w1 : ℕ)
    (h : advanceWatermark (sortItems raw) (some w0) now = some w1) (hlt : w1 < w0) :
    w1 = now ∨ ∃ m, firstPublished (sortItems raw) = some m ∧ w1 = m ∧ m < w0 := by
  rw [advanceWatermark_eq] at h
  cases hfp : firstPublished (sortItems raw) with
  | none =>
      rw [hfp] at h
      simp only [] at h
      split_ifs at h with hnw
      · exact Or.inl (Option.some.inj h).symm
      · have h' : w0 = w1 := Option.some.inj h
        subst h'
        exact absurd hlt (lt_irrefl _)
  | some m =>
      rw [hfp] at h
      simp only [] at h
      split_ifs at h with hnm
      · exact Or.inl (Option.some.inj h).symm
      · have h' : m = w1 := Option.some.inj h
        exact Or.inr ⟨m, rfl, h'.symm, by omega⟩

/-- Witness for C3 (amended) at the counterexample input. -/
theorem watermark_regress_witness :
    (5 : ℕ) = 20 ∨ ∃ m, firstPublished (sortItems [specItemTs]) = some m ∧ (5 : ℕ) = m ∧ m < 10 :=
  watermark_regress_only_via_clamp_or_older_feed [specItemTs] 10 20 5 (by decide) (by decide)

/-- Counterexample for C4: with no fetched records at all and a prior
watermark `10` that is ahead of the current time `5`, the fallback
`newest_ts = last_seen` is itself clamped to `now`, so the watermark is not
left unchanged. -/
theorem advance_without_timestamped_counterexample :
    firstPublished (sortItems []) = none ∧
    advanceWatermark (sortItems []) (some 10) 5 = some 5 ∧
    some (5 : ℕ) ≠ some (10 : ℕ) := by
  decide

/-- C4 (amended): with at least one timestamped record the new watermark is
the maximum fetched timestamp, clamped to `now`; with none, the prior
watermark is kept but is itself clamped to `now` when it lies in the future
(the clamp applies to the fallback value too). -/
theorem advance_watermark_spec (raw : List Item) (ls : Option ℕ) (now : ℕ) :
    (firstPublished (sortItems raw) = none →
      advanceWatermark (sortItems raw) ls now =
        (match ls with
         | none => none
         | some w => some (if now < w then now else w))) ∧
    (∀ M, firstPublished (sortItems raw) = some M →
      (∃ i ∈ raw, i.published_at = some M) ∧
      (∀ i ∈ raw, ∀ t, i.published_at = some t → t ≤ M) ∧
      advanceWatermark (sortItems raw) ls now = some (if now < M then now else M)) := by
  constructor
  · intro hfp
    rw [advanceWatermark_eq, hfp]
    cases ls <;> rfl
  · intro M hfp
    refine ⟨?_, ?_, by rw [advanceWatermark_eq, hfp]⟩
    · obtain ⟨i, hi, ht⟩ := firstPublished_mem _ _ hfp
      exact ⟨i, (sortItems_perm raw).mem_iff.mp hi, ht⟩
    · intro i hi t ht
      exact firstPublished_ub _ (sortItems_sorted raw) i
        ((sortItems_perm raw).mem_iff.mpr hi) t ht M hfp

/-- Witness for C4 (amended) at a concrete input. -/
theorem advance_watermark_spec_witness :
    (∃ i ∈ [specItemTs], i.published_at = some 5) ∧
    (∀ i ∈ [specItemTs], ∀ t, i.published_at = some t → t ≤ 5) ∧
    advanceWatermark (sortItems [specItemTs]) none 10 = some (if 10 < 5 then 10 else 5) :=
  (advance_watermark_spec [specItemTs] none 10).2 5 (by decide)

/-- The identity enumeration is a legitimate set listing. -/
theorem validEnum_id : validEnum id := fun l => List.Perm.refl l

/-- An added element is in the set. -/
theorem mem_setAdd_self (s : List String) (g : String) : g ∈ setAdd s g := by
  unfold setAdd
  split_ifs with h
  · exact h
  · exact List.mem_append_right s (List.mem_singleton_self g)

/-- Adding preserves membership. -/
theorem mem_setAdd_of_mem {s : List String} {x : String} (h : x ∈ s) (g : String) :
    x ∈ setAdd s g := by
  unfold setAdd
  split_ifs
  · exact h
  · exact List.mem_append_left _ h

/-- The loop step preserves membership. -/
theorem mem_seenStep_of_mem {s : List String} {x : String} (h : x ∈ s) (i : Item) :
    x ∈ seenStep s i := by
  unfold seenStep
  split_ifs
  · exact mem_setAdd_of_mem h _
  · exact h

/-- The loop preserves membership of the accumulator. -/
theorem mem_foldl_seenStep_of_mem :
    ∀ (items : List Item) (s : List String) (x : String), x ∈ s →
      x ∈ items.foldl seenStep s := by
  intro items
  induction items with
  | nil => intro s x h; simpa using h
  | cons a t ih =>
      intro s x h
      rw [List.foldl_cons]
      exact ih _ x (mem_seenStep_of_mem h a)

/-- Every truthy guid of a processed item ends up in the seen set. -/
theorem guid_mem_foldl_seenStep :
    ∀ (items : List Item) (s : List String) (i : Item), i ∈ items →
      pyTruthyStr i.guid = true → i.guid.getD "" ∈ items.foldl seenStep s := by
  intro items
  induction items with
  | nil => intro s i hi; cases hi
  | cons a t ih =>
      intro s i hi htr
      rcases List.mem_cons.mp hi with rfl | hi'
      · rw [List.foldl_cons]
        apply mem_foldl_seenStep_of_mem
        unfold seenStep
        rw [if_pos htr]
        exact mem_setAdd_self _ _
      · rw [List.foldl_cons]
        exact ih _ i hi' htr

/-- `l[-n:]` is all of `l` when `l` has at most `n` elements. -/
theorem lastSlice_of_le {n : ℕ} {l : List String} (h : l.length ≤ n) : lastSlice n l = l := by
  unfold lastSlice
  rw [Nat.sub_eq_zero_of_le h, List.drop_zero]

/-- A record whose clamped timestamp was in the future at the first run. -/
def c2FutureItem : Item := ⟨some "g", "t", "u", some 100, none, none, none⟩

/-- Counterexample for C2: a record published at `100` is fetched at `now = 50`;
the clamp persists watermark `50`, so an identical second fetch classifies the
same record as new again. -/
theorem second_run_reflags_clamped_item :
    newItemsOf (runOnce ⟨3, true⟩ id ⟨none, []⟩ [c2FutureItem] 50).2
      (sortItems [c2FutureItem]) ≠ [] := by
  decide

/-- C2 (amended): a second run over the identical fetched list yields zero new
records, provided no fetched timestamp exceeded the first run's `now` (no
clamp) and the seen set stayed within its 4000 cap during the first run. -/
theorem second_run_yields_no_new (cfg : Config) (enum : List String → List String)
    (st0 : SyncState) (raw : List Item) (now : ℕ)
    (he : validEnum enum)
    (hclamp : ∀ m, firstPublished (sortItems raw) = some m → m ≤ now)
    (hcap : (seenSetAfter st0.seen_guids (sortItems raw)).length ≤ 4000) :
    newItemsOf (runOnce cfg enum st0 raw now).2 (sortItems raw) = [] := by
  have hstate : (runOnce cfg enum st0 raw now).2 =
      ⟨advanceWatermark (sortItems raw) st0.last_seen now,
        updateSeen enum st0.seen_guids (sortItems raw)⟩ := rfl
  rw [hstate]
  unfold newItemsOf
  rw [List.filter_eq_nil_iff]
  intro i hi
  cases hpub : i.published_at with
  | some t =>
      obtain ⟨m, hm⟩ := firstPublished_isSome_of_mem hi hpub
      have htm : t ≤ m := firstPublished_ub _ (sortItems_sorted raw) i hi t hpub m hm
      have hmn : m ≤ now := hclamp m hm
      have hw : advanceWatermark (sortItems raw) st0.last_seen now = some m := by
        rw [advanceWatermark_of_some (sortItems raw) st0.last_seen now m hm,
          if_neg (by omega : ¬ now < m)]
      have hnlt : ¬ (m < t) := by omega
      simp [isNew, hpub, hw, pyTruthyTs, tsLt, hnlt]
  | none =>
      cases hg : i.guid with
      | none => simp [isNew, hpub, hg, pyTruthyTs, pyTruthyStr]
      | some g =>
          by_cases hge : g = ""
          · simp [isNew, hpub, hg, hge, pyTruthyTs, pyTruthyStr]
          · have hmem : g ∈ seenSetAfter st0.seen_guids (sortItems raw) := by
              have hmem' := guid_mem_foldl_seenStep (sortItems raw)
                (setOfList st0.seen_guids) i hi (by simp [pyTruthyStr, hg, hge])
              simpa [seenSetAfter, hg] using hmem'
            have hlen : (enum (seenSetAfter st0.seen_guids (sortItems raw))).length ≤ 4000 := by
              rw [(he _).length_eq]
              exact hcap
            have hupd : updateSeen enum st0.seen_guids (sortItems raw) =
                enum (seenSetAfter st0.seen_guids (sortItems raw)) := by
              unfold updateSeen
              exact lastSlice_of_le hlen
            have hging : g ∈ updateSeen enum st0.seen_guids (sortItems raw) := by
              rw [hupd]
              exact ((he _).mem_iff).mpr hmem
            simp [isNew, hpub, hg, hge, pyTruthyTs, pyTruthyStr, hging]

/-- Witness for C2 (amended): one record published at `5`, fetched at `now = 10`. -/
theorem second_run_yields_no_new_witness :
    ((∀ m, firstPublished (sortItems [specItemTs]) = some m → m ≤ 10) ∧
      (seenSetAfter ([] : List String) (sortItems [specItemTs])).length ≤ 4000) ∧
    newItemsOf (runOnce ⟨3, true⟩ id ⟨none, []⟩ [specItemTs] 10).2
      (sortItems [specItemTs]) = [] := by
  have hclamp : ∀ m, firstPublished (sortItems [specItemTs]) = some m → m ≤ 10 := by
    intro m hm
    have h5 : firstPublished (sortItems [specItemTs]) = some 5 := by decide
    rw [h5] at hm
    have := Option.some.inj hm
    omega
  exact ⟨⟨hclamp, by decide⟩,
    second_run_yields_no_new ⟨3, true⟩ id ⟨none, []⟩ [specItemTs] 10
      validEnum_id hclamp (by decide)⟩

/-- The string of `n` copies of the letter `a`; used to build 4001 distinct ids. -/
def aStr (n : ℕ) : String := String.mk (List.replicate n 'a')

/-- Distinct repeat counts give distinct strings. -/
theorem aStr_injective : Function.Injective aStr := by
  intro m n h
  have h2 : List.replicate m 'a' = List.replicate n 'a' := congrArg String.data h
  simpa using congrArg List.length h2

/-- A prior seen set of 4000 distinct ids (`aa`, `aaa`, …). -/
def c5Prior : List String := (List.range 4000).map (fun n => aStr (n + 2))

/-- The 4001st id, `"a"`, arriving on an undated record. -/
def c5Item : Item := ⟨some "a", "t", "u", none, none, none, none⟩

/-- An enumeration that lists `"a"` first: a permutation of the set contents,
hence a legitimate value of `list(<set>)`, whose order the script does not
constrain. -/
def evictEnum (l : List String) : List String :=
  l.filter (fun x => x == "a") ++ l.filter (fun x => !(x == "a"))

/-- The adversarial enumeration is a legitimate set listing. -/
theorem validEnum_evictEnum : validEnum evictEnum := fun l =>
  List.filter_append_perm (fun x => x == "a") l

/-- The prior ids are pairwise distinct. -/
theorem c5Prior_nodup : c5Prior.Nodup :=
  List.Nodup.map (fun m n h => by have := aStr_injective h; omega) (List.nodup_range 4000)

/-- `"a"` is not among the prior ids. -/
theorem a_not_mem_c5Prior : "a" ∉ c5Prior := by
  intro h
  obtain ⟨n, _, he⟩ := List.mem_map.mp h
  have h1 : aStr (n + 2) = aStr 1 := by
    rw [he]
    decide
  have := aStr_injective h1
  omega

/-- Folding `setAdd` over fresh elements appends them in insertion order. -/
theorem foldl_setAdd_of_fresh :
    ∀ (l acc : List String), (∀ x ∈ l, x ∉ acc) → l.Nodup →
      l.foldl setAdd acc = acc ++ l := by
  intro l
  induction l with
  | nil => intro acc _ _; simp
  | cons a t ih =>
      intro acc hdis hnd
      rw [List.foldl_cons]
      have ha : setAdd acc a = acc ++ [a] := by
        unfold setAdd
        rw [if_neg (hdis a (List.mem_cons_self a t))]
      rw [ha, ih (acc ++ [a]) ?_ (List.nodup_cons.mp hnd).2]
      · simp
      · intro x hx
        simp only [List.mem_append, List.mem_singleton]
        rintro (hxa | rfl)
        · exact hdis x (List.mem_cons_of_mem a hx) hxa
        · exact (List.nodup_cons.mp hnd).1 hx

/-- `set(l)` of a duplicate-free list is the list itself. -/
theorem setOfList_of_nodup {l : List String} (h : l.Nodup) : setOfList l = l := by
  unfold setOfList
  rw [foldl_setAdd_of_fresh l [] (by simp) h]
  simp

/-- The seen set after adding `"a"` to the 4000 prior ids, in insertion order. -/
theorem c5_seenSet : seenSetAfter c5Prior [c5Item] = c5Prior ++ ["a"] := by
  unfold seenSetAfter
  rw [setOfList_of_nodup c5Prior_nodup]
  rw [List.foldl_cons, List.foldl_nil]
  unfold seenStep
  rw [if_pos (by decide)]
  unfold setAdd
  show (if "a" ∈ c5Prior then c5Prior else c5Prior ++ ["a"]) = c5Prior ++ ["a"]
  rw [if_neg a_not_mem_c5Prior]

/-- No prior id equals `"a"`. -/
theorem c5Prior_ne_a : ∀ x ∈ c5Prior, ¬ x = "a" := by
  intro x hx he
  exact a_not_mem_c5Prior (he ▸ hx)

/-- The adversarial enumeration lists the union with `"a"` first. -/
theorem evictEnum_on_c5 : evictEnum (c5Prior ++ ["a"]) = "a" :: c5Prior := by
  unfold evictEnum
  rw [List.filter_append, List.filter_append]
  rw [show c5Prior.filter (fun x => x == "a") = [] by
    rw [List.filter_eq_nil_iff]
    intro x hx
    simpa using c5Prior_ne_a x hx]
  rw [show c5Prior.filter (fun x => !(x == "a")) = c5Prior by
    rw [List.filter_eq_self]
    intro x hx
    simpa using c5Prior_ne_a x hx]
  simp

/-- The prior set holds exactly 4000 ids. -/
theorem c5Prior_length : c5Prior.length = 4000 := by
  simp [c5Prior]

/-- C5 (code bug): the script persists `list(seen_guids)[-4000:]` where
`seen_guids` is an unordered set, so eviction depends on the enumeration
order.  Under a legitimate enumeration, processing the 4001st distinct id
leaves the persisted collection at exactly 4000 entries but evicts the most
recently inserted id `"a"` while keeping all 4000 older ids: eviction is not
oldest-inserted-first and the newest id is lost. -/
theorem seen_eviction_not_oldest_first :
    ∃ enum : List String → List String, validEnum enum ∧
      pyTruthyStr c5Item.guid = true ∧ c5Item.guid = some "a" ∧
      (updateSeen enum c5Prior [c5Item]).length = 4000 ∧
      "a" ∉ updateSeen enum c5Prior [c5Item] ∧
      ∀ g ∈ c5Prior, g ∈ updateSeen enum c5Prior [c5Item] := by
  have hupd : updateSeen evictEnum c5Prior [c5Item] = c5Prior := by
    unfold updateSeen
    rw [c5_seenSet, evictEnum_on_c5]
    unfold lastSlice
    rw [show ("a" :: c5Prior).length - 4000 = 1 by
      simp [c5Prior_length, List.length_cons]]
    rfl
  refine ⟨evictEnum, validEnum_evictEnum, by decide, rfl, ?_, ?_, ?_⟩
  · rw [hupd]
    exact c5Prior_length
  · rw [hupd]
    exact a_not_mem_c5Prior
  · intro g hg
    rw [hupd]
    exact hg

/-- Counterexample for C7: the numeric value `3.5` converts to THREE full
stars plus the half glyph (`int(3.5) = 3`), not two full plus a half as the
claim (quoting the spec) states. -/
theorem stars_for_three_point_five :
    stars_from_numeric ((7 : ℚ)/2) = strRepeat starGlyph 3 ++ halfGlyph ∧
    stars_from_numeric ((7 : ℚ)/2) ≠ strRepeat starGlyph 2 ++ halfGlyph := by
  have h35 : pyTrunc ((7 : ℚ)/2) = 3 := by
    unfold pyTrunc
    rw [if_pos (by norm_num)]
    norm_num
  have key : stars_from_numeric ((7 : ℚ)/2) = strRepeat starGlyph 3 ++ halfGlyph := by
    unfold stars_from_numeric
    rw [h35]
    rw [if_pos (by norm_num [abs_of_nonneg])]
    decide
  exact ⟨key, by rw [key]; decide⟩

/-- C7 (amended): on the rating domain (half-integer values `k/2`), the star
text is `floor(value)` full-star glyphs, plus the half glyph exactly when the
fractional part is `1/2` (that is, exactly at the `x.5` tie), never rounding
up; in particular `3.5` gives three full plus a half and `4.0` four full with
no half glyph. -/
theorem stars_from_numeric_half_steps (k : ℕ) :
    stars_from_numeric ((k : ℚ)/2) =
      strRepeat starGlyph (k / 2) ++ (if k % 2 = 1 then halfGlyph else "") := by
  obtain ⟨m, r, hr, rfl⟩ : ∃ m r, r < 2 ∧ k = 2 * m + r :=
    ⟨k / 2, k % 2, Nat.mod_lt _ (by norm_num), by omega⟩
  interval_cases r
  · have hx : ((2 * m + 0 : ℕ) : ℚ)/2 = (m : ℚ) := by
      push_cast
      ring
    have htr : pyTrunc ((m : ℕ) : ℚ) = (m : ℤ) := by
      unfold pyTrunc
      rw [if_pos (by positivity)]
      exact_mod_cast Int.floor_natCast m
    rw [hx]
    unfold stars_from_numeric
    rw [htr]
    rw [if_neg (by push_cast; simp; norm_num)]
    rw [show ((m : ℤ)).toNat = m from Int.toNat_natCast m]
    rw [show (2 * m + 0) / 2 = m by omega, show (2 * m + 0) % 2 = 0 by omega]
    simp
  · have hx : ((2 * m + 1 : ℕ) : ℚ)/2 = (m : ℚ) + 1/2 := by
      push_cast
      ring
    have hfl : ⌊(m : ℚ) + 1/2⌋ = (m : ℤ) := by
      rw [Int.floor_eq_iff]
      constructor
      · push_cast
        linarith
      · push_cast
        linarith
    have htr : pyTrunc ((m : ℚ) + 1/2) = (m : ℤ) := by
      unfold pyTrunc
      rw [if_pos (by positivity)]
      exact hfl
    have habs : |(m : ℚ) + 1/2 - (((m : ℤ) : ℤ) : ℚ)| = 1/2 := by
      rw [show (m : ℚ) + 1/2 - (((m : ℤ) : ℤ) : ℚ) = 1/2 by push_cast; ring]
      rw [abs_of_nonneg (by norm_num)]
    rw [hx]
    unfold stars_from_numeric
    rw [htr]
    rw [if_pos (by rw [habs]; norm_num)]
    rw [show ((m : ℤ)).toNat = m from Int.toNat_natCast m]
    rw [show (2 * m + 1) / 2 = m by omega, show (2 * m + 1) % 2 = 1 by omega]
    simp

/-- The counterexample title for C8: raw title `"A - b<star>"`. -/
def c8Title : String := "A - b" ++ starGlyph

/-- Counterexample for C8: the suffix `"b<star>"` after the last `" - "`
contains the non-glyph character `b`, yet `parse_rating_from_title` accepts
it as the rating text: the code tests glyph CONTAINMENT, not that the suffix
is composed solely of glyphs. -/
theorem rating_suffix_with_non_glyph_accepted :
    parse_rating_from_title c8Title = some ("b" ++ starGlyph) ∧
    'b' ∈ ("b" ++ starGlyph).toList ∧ 'b' ∉ glyphChars := by
  refine ⟨by decide, by decide, by decide⟩

/-- C8 (amended): when the title splits on its last `" - "`, the suffix is
accepted (stripped) as the rating text iff it CONTAINS the star or half-star
glyph; a suffix with no glyph does not end the search — the parser falls back
to collecting glyph characters from the whole title. -/
theorem rating_suffix_accepted_iff_contains_glyph (title : String) (pre suf : List Char)
    (ht : ¬ title = "") (hsplit : rsplitOnce dashSep title.toList = some (pre, suf)) :
    ((strContains suf starGlyph.toList || strContains suf halfGlyph.toList) = true →
      parse_rating_from_title title = some (String.mk (pyStripChars suf))) ∧
    ((strContains suf starGlyph.toList || strContains suf halfGlyph.toList) = false →
      parse_rating_from_title title = fallbackStars title) := by
  unfold parse_rating_from_title
  rw [if_neg (show ¬ (title == "") = true by simp [ht])]
  rw [hsplit]
  constructor
  · intro hc
    show (if (strContains suf starGlyph.toList || strContains suf halfGlyph.toList) = true
        then some (String.mk (pyStripChars suf)) else fallbackStars title) =
      some (String.mk (pyStripChars suf))
    rw [if_pos hc]
  · intro hc
    show (if (strContains suf starGlyph.toList || strContains suf halfGlyph.toList) = true
        then some (String.mk (pyStripChars suf)) else fallbackStars title) =
      fallbackStars title
    rw [if_neg (by rw [hc]; simp)]

/-- Witness for C8 (amended) at the counterexample title. -/
theorem rating_suffix_accepted_witness :
    parse_rating_from_title c8Title = some (String.mk (pyStripChars ("b" ++ starGlyph).toList)) :=
  (rating_suffix_accepted_iff_contains_glyph c8Title "A".toList ("b" ++ starGlyph).toList
    (by decide) (by decide)).1 (by decide)
